import Mathlib

/-!
Verification development for the d-vecDB single-node vector-database engine.

The Rust sources are shallowly embedded: pure functions become Lean
functions, stateful code becomes explicit state passing, `Result` becomes
`Except`, `f32` arithmetic is modelled over `ℚ`, and external library
functions (bincode, crc32fast, serde_json parsing, std DefaultHasher,
hnsw_rs inner graph search) are parameters of the embedded definitions.
-/

namespace DVec

/-- Error taxonomy, from common/src/error.rs as used by the embedded code. -/
inductive VectorDbError where
  | collectionNotFound (name : String)
  | collectionAlreadyExists (name : String)
  | invalidDimension (expected actual : Nat)
  | notFound (message : String)
  | serialization (message : String)
  | corruption (message : String)
  deriving DecidableEq, Repr

/-- JSON values (serde_json::Value).  Numbers keep the integer/float
distinction that serde_json makes, with float payloads modelled over ℚ. -/
inductive Json where
  | null
  | bool (b : Bool)
  | int (n : Int)
  | num (q : ℚ)
  | str (s : String)
  | arr (xs : List Json)
  | obj (fields : List (String × Json))

/-- Association-list lookup, the model of HashMap / serde_json Map get:
first binding for the key wins (keys are unique in a HashMap). -/
def alist_lookup (k : String) : List (String × α) → Option α
  | [] => none
  | (k2, v) :: rest => if k2 = k then some v else alist_lookup k rest

/-- serde_json Value::as_str. -/
def Json.asStr : Json → Option String
  | .str s => some s
  | _ => none

/-- serde_json Value::as_i64: only integer numbers. -/
def Json.asI64 : Json → Option Int
  | .int n => some n
  | _ => none

/-- serde_json Value::as_bool. -/
def Json.asBool : Json → Option Bool
  | .bool b => some b
  | _ => none

/-- serde_json Value::as_f64: succeeds on every numeric value. -/
def Json.asF64 : Json → Option ℚ
  | .int n => some (n : ℚ)
  | .num q => some q
  | _ => none

/-- serde_json Value::as_array. -/
def Json.asArray : Json → Option (List Json)
  | .arr xs => some xs
  | _ => none

/-- serde_json Value::as_object. -/
def Json.asObject : Json → Option (List (String × Json))
  | .obj fields => some fields
  | _ => none

/-- serde_json Value::is_null. -/
def Json.isNull : Json → Bool
  | .null => true
  | _ => false

/-- Vector metadata: HashMap from String to serde_json::Value. -/
def Metadata : Type := List (String × Json)

/-- Metadata field access (HashMap::get). -/
def mget (md : Metadata) (k : String) : Option Json :=
  alist_lookup k md

/-- MatchValue from common/src/filter.rs. -/
inductive MatchValue where
  | keyword (s : String)
  | int (n : Int)
  | bool (b : Bool)

/-- GeoPoint from common/src/filter.rs. -/
structure GeoPoint where
  lat : ℚ
  lon : ℚ

/-- Field-level filter conditions from common/src/filter.rs, with the
fields of the corresponding Rust structs as constructor arguments. -/
inductive FieldCondition where
  | matchKeyword (key : String) (value : MatchValue)
  | matchAny (key : String) (vals : List MatchValue)
  | matchText (key : String) (text : String)
  | range (key : String) (gte gt lte lt : Option ℚ)
  | geoRadius (key : String) (latitude longitude radiusMeters : ℚ)
  | geoBoundingBox (key : String) (topLeft bottomRight : GeoPoint)
  | valuesCount (key : String) (gte gt lte lt : Option Nat)
  | isEmpty (key : String)
  | isNull (key : String)

mutual
/-- Filter from common/src/filter.rs. -/
inductive Filter where
  | must (cs : List Condition)
  | should (cs : List Condition)
  | mustNot (cs : List Condition)
  | minShould (cs : List Condition) (minCount : Nat)

/-- Condition from common/src/filter.rs: a field condition or a nested
filter. -/
inductive Condition where
  | cond (fc : FieldCondition)
  | filter (f : Filter)
end

/-- evaluate_match_keyword from common/src/filter.rs. -/
def evaluate_match_keyword (key : String) (value : MatchValue) (md : Metadata) : Bool :=
  match mget md key with
  | some v =>
    match value with
    | .keyword kw =>
      match v.asStr with
      | some s => decide (s = kw)
      | none => false
    | .int i =>
      match v.asI64 with
      | some n => decide (n = i)
      | none => false
    | .bool b =>
      match v.asBool with
      | some b2 => b2 == b
      | none => false
  | none => false

/-- Inner loop of evaluate_match_any from common/src/filter.rs. -/
def match_any_loop (v : Json) : List MatchValue → Bool
  | [] => false
  | mv :: rest =>
    (match mv with
     | .keyword kw =>
       match v.asStr with
       | some s => decide (s = kw)
       | none => false
     | .int i =>
       match v.asI64 with
       | some n => decide (n = i)
       | none => false
     | .bool b =>
       match v.asBool with
       | some b2 => b2 == b
       | none => false) || match_any_loop v rest

/-- evaluate_match_any from common/src/filter.rs. -/
def evaluate_match_any (key : String) (vals : List MatchValue) (md : Metadata) : Bool :=
  match mget md key with
  | some v => match_any_loop v vals
  | none => false

/-- Helper: does the first character list start the second. -/
def starts_with : List Char → List Char → Bool
  | [], _ => true
  | _ :: _, [] => false
  | p :: ps, h :: hs => p == h && starts_with ps hs

/-- Helper: does the pattern occur somewhere in the haystack. -/
def contains_at_some_position (pat : List Char) : List Char → Bool
  | [] => starts_with pat []
  | h :: hs => starts_with pat (h :: hs) || contains_at_some_position pat hs

/-- Case-insensitive substring containment used by evaluate_match_text
(Rust String::contains after to_lowercase on both sides). -/
def str_contains (hay pat : String) : Bool :=
  contains_at_some_position pat.toList hay.toList

/-- evaluate_match_text from common/src/filter.rs. -/
def evaluate_match_text (key : String) (text : String) (md : Metadata) : Bool :=
  match mget md key with
  | some v =>
    match v.asStr with
    | some s => str_contains s.toLower text.toLower
    | none => false
  | none => false

/-- evaluate_range from common/src/filter.rs.  as_f64 succeeds on every
numeric value, so the as_i64 fallback of the source never changes the
result; each supplied bound rejects on violation. -/
def evaluate_range (key : String) (gte gt lte lt : Option ℚ) (md : Metadata) : Bool :=
  match mget md key with
  | some v =>
    match v.asF64 with
    | some num =>
      (match gte with | some g => decide (g ≤ num) | none => true) &&
      (match gt with | some g => decide (g < num) | none => true) &&
      (match lte with | some l => decide (num ≤ l) | none => true) &&
      (match lt with | some l => decide (num < l) | none => true)
    | none => false
  | none => false

/-- evaluate_geo_radius from common/src/filter.rs; the haversine distance
(floating-point trigonometry) is an external parameter hav. -/
def evaluate_geo_radius (hav : ℚ → ℚ → ℚ → ℚ → ℚ)
    (key : String) (latitude longitude radiusMeters : ℚ) (md : Metadata) : Bool :=
  match mget md key with
  | some v =>
    match v.asObject with
    | some obj =>
      match (alist_lookup "lat" obj).bind Json.asF64,
            (alist_lookup "lon" obj).bind Json.asF64 with
      | some plat, some plon => decide (hav latitude longitude plat plon ≤ radiusMeters)
      | _, _ => false
    | none => false
  | none => false

/-- evaluate_geo_bounding_box from common/src/filter.rs. -/
def evaluate_geo_bounding_box (key : String) (topLeft bottomRight : GeoPoint)
    (md : Metadata) : Bool :=
  match mget md key with
  | some v =>
    match v.asObject with
    | some obj =>
      match (alist_lookup "lat" obj).bind Json.asF64,
            (alist_lookup "lon" obj).bind Json.asF64 with
      | some plat, some plon =>
        decide (plat ≤ topLeft.lat) && decide (bottomRight.lat ≤ plat) &&
        decide (topLeft.lon ≤ plon) && decide (plon ≤ bottomRight.lon)
      | _, _ => false
    | none => false
  | none => false

/-- evaluate_values_count from common/src/filter.rs. -/
def evaluate_values_count (key : String) (gte gt lte lt : Option Nat) (md : Metadata) : Bool :=
  match mget md key with
  | some v =>
    match v.asArray with
    | some arr =>
      (match gte with | some g => decide (g ≤ arr.length) | none => true) &&
      (match gt with | some g => decide (g < arr.length) | none => true) &&
      (match lte with | some l => decide (arr.length ≤ l) | none => true) &&
      (match lt with | some l => decide (arr.length < l) | none => true)
    | none => false
  | none => false

/-- evaluate_is_empty from common/src/filter.rs: true only for an existing
empty array or empty string field. -/
def evaluate_is_empty (key : String) (md : Metadata) : Bool :=
  match mget md key with
  | some v =>
    match v.asArray with
    | some arr => arr.isEmpty
    | none =>
      match v.asStr with
      | some s => s.isEmpty
      | none => false
  | none => false

/-- evaluate_is_null from common/src/filter.rs. -/
def evaluate_is_null (key : String) (md : Metadata) : Bool :=
  match mget md key with
  | some v => v.isNull
  | none => false

/-- evaluate_field_condition from common/src/filter.rs. -/
def evaluate_field_condition (hav : ℚ → ℚ → ℚ → ℚ → ℚ)
    (fc : FieldCondition) (md : Metadata) : Bool :=
  match fc with
  | .matchKeyword key value => evaluate_match_keyword key value md
  | .matchAny key vals => evaluate_match_any key vals md
  | .matchText key text => evaluate_match_text key text md
  | .range key gte gt lte lt => evaluate_range key gte gt lte lt md
  | .geoRadius key la lo r => evaluate_geo_radius hav key la lo r md
  | .geoBoundingBox key tl br => evaluate_geo_bounding_box key tl br md
  | .valuesCount key gte gt lte lt => evaluate_values_count key gte gt lte lt md
  | .isEmpty key => evaluate_is_empty key md
  | .isNull key => evaluate_is_null key md

mutual
/-- evaluate_filter from common/src/filter.rs: returns false on absent
metadata, conjunction for Must, disjunction for Should, negated
disjunction for MustNot, and a count threshold for MinShould. -/
def evaluate_filter (hav : ℚ → ℚ → ℚ → ℚ → ℚ)
    (f : Filter) (metadata : Option Metadata) : Bool :=
  match metadata with
  | none => false
  | some md =>
    match f with
    | .must cs => conditions_all hav cs md
    | .should cs => conditions_any hav cs md
    | .mustNot cs => !(conditions_any hav cs md)
    | .minShould cs minCount => decide (minCount ≤ count_matches hav cs md)

/-- Iterator all over conditions (Filter::Must). -/
def conditions_all (hav : ℚ → ℚ → ℚ → ℚ → ℚ) : List Condition → Metadata → Bool
  | [], _ => true
  | c :: cs, md => evaluate_condition hav c md && conditions_all hav cs md

/-- Iterator any over conditions (Filter::Should, Filter::MustNot). -/
def conditions_any (hav : ℚ → ℚ → ℚ → ℚ → ℚ) : List Condition → Metadata → Bool
  | [], _ => false
  | c :: cs, md => evaluate_condition hav c md || conditions_any hav cs md

/-- Iterator filter-count over conditions (Filter::MinShould). -/
def count_matches (hav : ℚ → ℚ → ℚ → ℚ → ℚ) : List Condition → Metadata → Nat
  | [], _ => 0
  | c :: cs, md =>
    (if evaluate_condition hav c md then 1 else 0) + count_matches hav cs md

/-- evaluate_condition from common/src/filter.rs: a nested filter is
evaluated against Some of the same metadata. -/
def evaluate_condition (hav : ℚ → ℚ → ℚ → ℚ → ℚ) (c : Condition) (md : Metadata) : Bool :=
  match c with
  | .cond fc => evaluate_field_condition hav fc md
  | .filter f => evaluate_filter hav f (some md)
end

/-! ## Core data model (common/src/types.rs) -/

/-- DistanceMetric from common/src/types.rs. -/
inductive DistanceMetric where
  | cosine
  | euclidean
  | dotProduct
  | manhattan
  deriving DecidableEq, Repr

/-- IndexConfig from common/src/types.rs. -/
structure IndexConfig where
  maxConnections : Nat
  efConstruction : Nat
  efSearch : Nat
  maxLayer : Nat
  deriving DecidableEq, Repr

/-- CollectionConfig from common/src/types.rs (vector_type and the
optional quantization config play no role in the claims considered and
are omitted from the embedded record). -/
structure CollectionConfig where
  name : String
  dimension : Nat
  distanceMetric : DistanceMetric
  indexConfig : IndexConfig

/-- A stored vector (common/src/types.rs).  VectorId (a Uuid) is
modelled as a Nat and f32 entries over ℚ. -/
structure Vector where
  id : Nat
  data : List ℚ
  metadata : Option Metadata

/-- A search result as produced by the index layer (index/src/lib.rs). -/
structure SearchResult where
  id : Nat
  distance : ℚ
  metadata : Option Metadata

/-- QueryRequest from common/src/types.rs, with the filter at the type the
query path of vectorstore/src/lib.rs evaluates it at. -/
structure QueryRequest where
  collection : String
  vector : List ℚ
  limit : Nat
  efSearch : Option Nat
  filter : Option Filter

/-! ## Recommendation helpers (common/src/search_api.rs) -/

/-- Accumulation loop of average_vectors: elementwise sum of all vectors,
failing on a dimension mismatch against the first vector. -/
def sum_loop (dim : Nat) (acc : List ℚ) : List (List ℚ) → Option (List ℚ)
  | [] => some acc
  | v :: vs =>
    if v.length = dim then sum_loop dim (List.zipWith (· + ·) acc v) vs else none

/-- average_vectors from common/src/search_api.rs: none on an empty input
or any dimension mismatch, otherwise the elementwise mean. -/
def average_vectors (vectors : List (List ℚ)) : Option (List ℚ) :=
  match vectors with
  | [] => none
  | v0 :: _ =>
    let dim := v0.length
    match sum_loop dim (List.replicate dim 0) vectors with
    | none => none
    | some s => some (s.map (fun x => x / (vectors.length : ℚ)))

/-- compute_recommendation_vector from common/src/search_api.rs. -/
def compute_recommendation_vector (positive negative : List (List ℚ)) : Option (List ℚ) :=
  match average_vectors positive with
  | none => none
  | some positiveAvg =>
    if negative.isEmpty then some positiveAvg
    else
      match average_vectors negative with
      | none => none
      | some negativeAvg =>
        if positiveAvg.length ≠ negativeAvg.length then none
        else some (List.zipWith (fun p n => 2 * p - n) positiveAvg negativeAvg)

/-- Column sum: the sum of entry i over a list of vectors (specification
vocabulary for stating the averaging theorems). -/
def col_sum (vs : List (List ℚ)) (i : Nat) : ℚ :=
  (vs.map (fun v => v.getD i 0)).sum

/-! ## Write-ahead log (storage/src/wal.rs)

The WAL file is a byte stream; bytes are Nat values below 256.  bincode
serialization of entries and operations and the crc32fast checksum are
external libraries, so read_all is parameterized by a deserializer de,
an operation serializer ser and a checksum function crc over an abstract
operation type. -/

/-- WALEntry from storage/src/wal.rs (uuid modelled as a Nat). -/
structure WALEntry (α : Type) where
  id : Nat
  timestamp : Nat
  checksum : Nat
  operation : α

/-- The WAL frame magic number 0xDEADBEEF. -/
def MAGIC : Nat := 0xDEADBEEF

/-- Little-endian u32 from four bytes. -/
def le32 (b0 b1 b2 b3 : Nat) : Nat :=
  b0 + 256 * b1 + 65536 * b2 + 16777216 * b3

/-- Little-endian u32 encoding of a number (truncated to 32 bits like the
Rust cast to u32). -/
def le32enc (n : Nat) : List Nat :=
  [n % 256, n / 256 % 256, n / 65536 % 256, n / 16777216 % 256]

/-- The 100 MiB sanity bound from read_all. -/
def MAX_WAL_ENTRY : Nat := 100 * 1024 * 1024

/-- Loop body of WriteAheadLog::read_all over the raw bytes.  Each
iteration reads a 4-byte magic (breaking at EOF), resumes 4 bytes later
on a magic mismatch, reads the 4-byte length (breaking when truncated),
resumes after the length field when the length exceeds 100 MiB, reads
the payload (breaking when truncated), then deserializes, recomputes the
checksum of the re-serialized operation and keeps the operation only if
both succeed.  The fuel argument bounds the iteration count; read_all
supplies one unit per byte, which dominates the 4 bytes consumed per
iteration. -/
def read_all_go (de : List Nat → Option (WALEntry α)) (ser : α → List Nat)
    (crc : List Nat → Nat) : Nat → List Nat → List α
  | 0, _ => []
  | fuel + 1, bytes =>
    match bytes with
    | b0 :: b1 :: b2 :: b3 :: rest =>
      if le32 b0 b1 b2 b3 ≠ MAGIC then read_all_go de ser crc fuel rest
      else
        match rest with
        | l0 :: l1 :: l2 :: l3 :: rest2 =>
          let len := le32 l0 l1 l2 l3
          if MAX_WAL_ENTRY < len then read_all_go de ser crc fuel rest2
          else if rest2.length < len then []
          else
            let payload := rest2.take len
            let rest3 := rest2.drop len
            match de payload with
            | none => read_all_go de ser crc fuel rest3
            | some entry =>
              if crc (ser entry.operation) = entry.checksum then
                entry.operation :: read_all_go de ser crc fuel rest3
              else read_all_go de ser crc fuel rest3
        | _ => []
    | _ => []

/-- WriteAheadLog::read_all on the flushed byte stream. -/
def read_all (de : List Nat → Option (WALEntry α)) (ser : α → List Nat)
    (crc : List Nat → Nat) (bytes : List Nat) : List α :=
  read_all_go de ser crc bytes.length bytes

/-- The byte frame written for one WAL entry payload with an arbitrary
magic field: magic, 4-byte little-endian length, payload. -/
def encode_frame_with_magic (magic : Nat) (payload : List Nat) : List Nat :=
  le32enc magic ++ le32enc payload.length ++ payload

/-- The well-formed frame written by WriteAheadLog::append. -/
def encode_frame (payload : List Nat) : List Nat :=
  encode_frame_with_magic MAGIC payload

/-- The operation surviving corruption checks for one frame payload:
some op exactly when the payload deserializes and the recomputed
checksum of the re-serialized operation matches the stored one. -/
def surviving (de : List Nat → Option (WALEntry α)) (ser : α → List Nat)
    (crc : List Nat → Nat) (payload : List Nat) : Option α :=
  match de payload with
  | none => none
  | some entry =>
    if crc (ser entry.operation) = entry.checksum then some entry.operation else none

/-! ## Collection storage (storage/src/lib.rs)

The vectors.bin file holds length-prefixed bincode records appended in
order; the file is modelled as the list of its decoded record payloads
(bincode serialization is an injective external codec). -/

/-- CollectionStorage::insert: reject a dimension mismatch with
InvalidDimension before anything reaches the data file, else append one
record. -/
def CollectionStorage.insert (config : CollectionConfig) (file : List Vector)
    (v : Vector) : Except VectorDbError (List Vector) :=
  if v.data.length ≠ config.dimension then
    .error (.invalidDimension config.dimension v.data.length)
  else .ok (file ++ [v])

/-- CollectionStorage::batch_insert: empty input is a no-op; all vectors
are validated before a single append of the whole batch, so a mismatch
anywhere keeps the file untouched. -/
def CollectionStorage.batch_insert (config : CollectionConfig) (file : List Vector)
    (vectors : List Vector) : Except VectorDbError (List Vector) :=
  if vectors.isEmpty then .ok file
  else
    match vectors.find? (fun v => v.data.length ≠ config.dimension) with
    | some v => .error (.invalidDimension config.dimension v.data.length)
    | none => .ok (file ++ vectors)

/-- CollectionStorage::get, a placeholder returning Ok(None). -/
def CollectionStorage.get (_id : Nat) : Except VectorDbError (Option Vector) :=
  .ok none

/-- CollectionStorage::delete, a placeholder returning Ok(false). -/
def CollectionStorage.delete (_id : Nat) : Except VectorDbError Bool :=
  .ok false

/-- The storage engine state relevant to per-id reads and deletes: the
registered collections and the WAL tail of logged delete operations. -/
structure StorageEngineState where
  collections : List (String × CollectionConfig)
  walDeletes : List (String × Nat)

/-- StorageEngine::get_vector: CollectionNotFound for an unregistered
collection, otherwise the per-collection get. -/
def StorageEngine.get_vector (s : StorageEngineState) (collection : String)
    (id : Nat) : Except VectorDbError (Option Vector) :=
  match alist_lookup collection s.collections with
  | none => .error (.collectionNotFound collection)
  | some _ => CollectionStorage.get id

/-- StorageEngine::delete_vector: CollectionNotFound for an unregistered
collection, otherwise append the DeleteVector operation to the WAL and
return the per-collection delete result. -/
def StorageEngine.delete_vector (s : StorageEngineState) (collection : String)
    (id : Nat) : Except VectorDbError (StorageEngineState × Bool) :=
  match alist_lookup collection s.collections with
  | none => .error (.collectionNotFound collection)
  | some _ =>
    match CollectionStorage.delete id with
    | .error e => .error e
    | .ok deleted =>
      .ok ({ s with walDeletes := s.walDeletes ++ [(collection, id)] }, deleted)

/-! ## Production index adapter (index/src/hnsw_rs_index.rs)

The inner hnsw_rs graphs are external; each is modelled by the sequence
of (vector, internal index) pairs inserted into it, and the inner search
is a parameter taking the distance function held by that graph. -/

/-- Association map insert with HashMap overwrite semantics over Nat
keys. -/
def map_insert (k : Nat) (v : α) : List (Nat × α) → List (Nat × α)
  | [] => [(k, v)]
  | p :: ps => if p.1 = k then (k, v) :: ps else p :: map_insert k v ps

/-- Association map removal (HashMap::remove) over Nat keys. -/
def map_remove (k : Nat) : List (Nat × α) → List (Nat × α)
  | [] => []
  | p :: ps => if p.1 = k then ps else p :: map_remove k ps

/-- Association map lookup over Nat keys. -/
def map_lookup (k : Nat) : List (Nat × α) → Option α
  | [] => none
  | p :: ps => if p.1 = k then some p.2 else map_lookup k ps

/-- The key sequence of an association map. -/
def map_keys (l : List (Nat × α)) : List Nat := l.map Prod.fst

/-- HnswRsIndex state: the two optional inner graphs, the configured
metric and dimension, the id/index bookkeeping maps and the counter. -/
structure HnswRsState where
  innerCosine : Option (List (List ℚ × Nat))
  innerEuclidean : Option (List (List ℚ × Nat))
  distanceMetric : DistanceMetric
  dimension : Nat
  idToIdx : List (Nat × Nat)
  idxToId : List (Nat × Nat)
  metadata : List (Nat × Metadata)
  nextIdx : Nat

/-- HnswRsIndex::new: a cosine graph for Cosine, a euclidean graph for
Euclidean, and a cosine graph as the default for every other metric. -/
def HnswRsIndex.new (metric : DistanceMetric) (dimension : Nat) : HnswRsState :=
  let inner : Option (List (List ℚ × Nat)) × Option (List (List ℚ × Nat)) :=
    match metric with
    | .cosine => (some [], none)
    | .euclidean => (none, some [])
    | _ => (some [], none)
  { innerCosine := inner.1
    innerEuclidean := inner.2
    distanceMetric := metric
    dimension := dimension
    idToIdx := []
    idxToId := []
    metadata := []
    nextIdx := 0 }

/-- HnswRsIndex::insert: reject a dimension mismatch, allocate the next
internal index, record the id mappings and metadata, and push the vector
into the graph selected by the metric (cosine for every metric other
than Euclidean). -/
def HnswRsIndex.insert (s : HnswRsState) (id : Nat) (vector : List ℚ)
    (metadata : Option Metadata) : Except VectorDbError HnswRsState :=
  if vector.length ≠ s.dimension then
    .error (.invalidDimension s.dimension vector.length)
  else
    let idx := s.nextIdx
    .ok { s with
      nextIdx := idx + 1
      idToIdx := map_insert id idx s.idToIdx
      idxToId := map_insert idx id s.idxToId
      metadata :=
        match metadata with
        | some m => map_insert id m s.metadata
        | none => s.metadata
      innerCosine :=
        match s.distanceMetric with
        | .euclidean => s.innerCosine
        | _ => s.innerCosine.map (· ++ [(vector, idx)])
      innerEuclidean :=
        match s.distanceMetric with
        | .euclidean => s.innerEuclidean.map (· ++ [(vector, idx)])
        | _ => s.innerEuclidean }

/-- HnswRsIndex::delete: the inner graph supports no deletion, so only
the id mappings and metadata are dropped; returns whether the id was
mapped. -/
def HnswRsIndex.delete (s : HnswRsState) (id : Nat) : HnswRsState × Bool :=
  match map_lookup id s.idToIdx with
  | some idx =>
    ({ s with
        idToIdx := map_remove id s.idToIdx
        idxToId := map_remove idx s.idxToId
        metadata := map_remove id s.metadata }, true)
  | none => (s, false)

/-- HnswRsIndex::stats vector_count: the size of the id-to-index map. -/
def HnswRsIndex.statsVectorCount (s : HnswRsState) : Nat :=
  s.idToIdx.length

/-- The ef value HnswRsIndex::search hands to the inner graph:
the supplied ef_search unchanged, or max(limit, 50) when absent. -/
def HnswRsIndex.effectiveEf (efSearch : Option Nat) (limit : Nat) : Nat :=
  efSearch.getD (max limit 50)

/-- HnswRsIndex::search: dimension check, ef computation, inner search on
the graph selected by the metric (cosine distance for any metric other
than Euclidean), then translation of internal indices back to ids with
their metadata; indices with no id mapping are dropped. -/
def HnswRsIndex.search (s : HnswRsState)
    (innerSearch : (List ℚ → List ℚ → ℚ) → List (List ℚ × Nat) → List ℚ → Nat → Nat → List (Nat × ℚ))
    (distCosine distL2 : List ℚ → List ℚ → ℚ)
    (query : List ℚ) (limit : Nat) (efSearch : Option Nat) :
    Except VectorDbError (List SearchResult) :=
  if query.length ≠ s.dimension then
    .error (.invalidDimension s.dimension query.length)
  else
    let ef := HnswRsIndex.effectiveEf efSearch limit
    let internalResults :=
      match s.distanceMetric with
      | .euclidean =>
        match s.innerEuclidean with
        | some data => innerSearch distL2 data query limit ef
        | none => []
      | _ =>
        match s.innerCosine with
        | some data => innerSearch distCosine data query limit ef
        | none => []
    .ok (internalResults.filterMap (fun r =>
      (map_lookup r.1 s.idxToId).map (fun id =>
        { id := id, distance := r.2, metadata := map_lookup id s.metadata })))

/-- An insert or delete operation applied to the index through the
vector store. -/
inductive Op where
  | insert (id : Nat) (vector : List ℚ) (metadata : Option Metadata)
  | delete (id : Nat)

/-- Run a sequence of operations against the index state, counting the
deletes that returned true; a failed insert (dimension mismatch) leaves
the index untouched, as the vector store surfaces the error before the
index is reached. -/
def run_ops (s : HnswRsState) : List Op → HnswRsState × Nat
  | [] => (s, 0)
  | .insert id v m :: rest =>
    match HnswRsIndex.insert s id v m with
    | .ok s2 => run_ops s2 rest
    | .error _ => run_ops s rest
  | .delete id :: rest =>
    let r := HnswRsIndex.delete s id
    let f := run_ops r.1 rest
    (f.1, if r.2 then f.2 + 1 else f.2)

/-- The distinct-inserted-id accumulator: ids of insert operations in
first-occurrence order, starting from an already-collected list. -/
def acc_inserted (acc : List Nat) : List Op → List Nat
  | [] => acc
  | .insert id _ _ :: rest => acc_inserted (if id ∈ acc then acc else acc ++ [id]) rest
  | .delete _ :: rest => acc_inserted acc rest

/-- The distinct ids appearing in insert operations of a history. -/
def distinct_inserted (ops : List Op) : List Nat :=
  acc_inserted [] ops

/-- No id is inserted after an earlier delete operation of the same id. -/
def NoInsertAfterDelete (ops : List Op) : Prop :=
  List.Pairwise (fun a b => ∀ id, a = Op.delete id → ∀ v m, b ≠ Op.insert id v m) ops

/-- Every insert operation of the history carries a vector of the stated
dimension. -/
def WellDimensioned (dim : Nat) (ops : List Op) : Prop :=
  ∀ id v m, Op.insert id v m ∈ ops → v.length = dim

/-! ## In-house HNSW index (index/src/hnsw.rs)

Only the public search path is needed for the claims.  The node table
and search_layer exploration are abstracted: layer_of gives a node's
layer, metadata_of its metadata snapshot, and search_layer the candidate
list (id, distance) returned for a query, entry list, dynamic list size
and layer. -/

/-- The descent of HnswIndex::search from the entry layer down to layer
one, each step with dynamic list size one. -/
def hnsw_descend (searchLayer : List ℚ → List Nat → Nat → Nat → List (Nat × ℚ))
    (query : List ℚ) (current : List Nat) : Nat → List Nat
  | 0 => current
  | l + 1 => hnsw_descend searchLayer query ((searchLayer query current 1 (l + 1)).map Prod.fst) l

/-- HnswIndex::search: dimension check, empty-index shortcut, descent
with size one to layer one, then the layer-zero search with dynamic list
size max(ef_search, limit) where ef_search defaults to the configured
value, truncated to limit. -/
def HnswIndex.search (config : IndexConfig) (dimension : Nat)
    (entryPoint : Option Nat) (layerOf : Nat → Nat)
    (metadataOf : Nat → Option Metadata)
    (searchLayer : List ℚ → List Nat → Nat → Nat → List (Nat × ℚ))
    (query : List ℚ) (limit : Nat) (ef : Option Nat) :
    Except VectorDbError (List SearchResult) :=
  if query.length ≠ dimension then
    .error (.invalidDimension dimension query.length)
  else
    match entryPoint with
    | none => .ok []
    | some entryId =>
      let entryLayer := layerOf entryId
      let efSearch := ef.getD config.efSearch
      let currentClosest := hnsw_descend searchLayer query [entryId] entryLayer
      let candidates := searchLayer query currentClosest (max efSearch limit) 0
      .ok ((candidates.take limit).map (fun c =>
        { id := c.1, distance := c.2, metadata := metadataOf c.1 }))

/-! ## Vector store facade (vectorstore/src/lib.rs) -/

/-- VectorStore::query: collection and dimension validation, an index
search for limit * 3 candidates when a filter is present (limit
otherwise), post-filtering with evaluate_filter, and truncation to
limit.  The collection config lookup and the per-collection index search
are parameters. -/
def VectorStore.query (hav : ℚ → ℚ → ℚ → ℚ → ℚ)
    (configOf : String → Option CollectionConfig)
    (indexSearchOf : String → Option (List ℚ → Nat → Option Nat → List SearchResult))
    (request : QueryRequest) : Except VectorDbError (List SearchResult) :=
  match configOf request.collection with
  | none => .error (.collectionNotFound request.collection)
  | some config =>
    if request.vector.length ≠ config.dimension then
      .error (.invalidDimension config.dimension request.vector.length)
    else
      match indexSearchOf request.collection with
      | none => .error (.collectionNotFound request.collection)
      | some indexSearch =>
        let searchLimit := if request.filter.isSome then request.limit * 3 else request.limit
        let searchResults := indexSearch request.vector searchLimit request.efSearch
        let filteredResults :=
          match request.filter with
          | some f =>
            (searchResults.filter (fun r => evaluate_filter hav f r.metadata)).take request.limit
          | none => searchResults.take request.limit
        .ok filteredResults

/-- VectorStore::get, which forwards to StorageEngine::get_vector. -/
def VectorStore.get (s : StorageEngineState) (collection : String) (id : Nat) :
    Except VectorDbError (Option Vector) :=
  StorageEngine.get_vector s collection id

/-- VectorStore::delete: delete from storage (whose boolean is the
returned value), then drop the id from the index. -/
def VectorStore.delete (s : StorageEngineState) (index : HnswRsState)
    (collection : String) (id : Nat) :
    Except VectorDbError (StorageEngineState × HnswRsState × Bool) :=
  match StorageEngine.delete_vector s collection id with
  | .error e => .error e
  | .ok r =>
    let d := HnswRsIndex.delete index id
    .ok (r.1, d.1, r.2)

/-! ## Snapshot manager (storage/src/snapshot.rs)

A snapshot directory is the list of its (file name, content bytes)
entries in enumeration order; the std DefaultHasher and the JSON parse
of snapshot.json are external parameters. -/

/-- SnapshotMetadata from storage/src/snapshot.rs (the checksum, a hex
string of the u64 hash, is modelled by the hash value itself). -/
structure SnapshotMetadata where
  name : String
  collection : String
  createdAt : Nat
  sizeBytes : Nat
  vectorCount : Nat
  checksum : Nat

/-- SnapshotManager::calculate_checksum: hash the contents of every file
in the directory except snapshot.json, in enumeration order. -/
def calculate_checksum (hash : List (List Nat) → Nat)
    (snapshotDir : List (String × List Nat)) : Nat :=
  hash ((snapshotDir.filter (fun e => e.1 ≠ "snapshot.json")).map Prod.snd)

/-- SnapshotManager::restore_snapshot: read and parse snapshot.json,
recompute the directory checksum and compare it with the stored one,
fail with Corruption on mismatch before anything is copied, otherwise
copy every file except snapshot.json into the target directory.  The
returned list is the sequence of files copied into the target. -/
def restore_snapshot (hash : List (List Nat) → Nat)
    (parseMeta : List Nat → Option SnapshotMetadata)
    (snapshotDir : List (String × List Nat)) :
    Except VectorDbError (List (String × List Nat)) :=
  match alist_lookup "snapshot.json" snapshotDir with
  | none => .error (.notFound "snapshot metadata not found")
  | some metaBytes =>
    match parseMeta metaBytes with
    | none => .error (.serialization "failed to parse snapshot metadata")
    | some meta =>
      if calculate_checksum hash snapshotDir ≠ meta.checksum then
        .error (.corruption "snapshot checksum mismatch")
      else
        .ok (snapshotDir.filter (fun e => e.1 ≠ "snapshot.json"))

/-! ## Concrete instantiations used for evaluating the embedded code -/

/-- Toy WAL operation deserializer for concrete evaluations: an operation
is a Nat; an entry payload is two bytes, checksum then operation. -/
def toy_de : List Nat → Option (WALEntry Nat)
  | [c, n] => some { id := 0, timestamp := 0, checksum := c, operation := n }
  | _ => none

/-- Toy WAL operation serializer: a singleton byte list. -/
def toy_ser (n : Nat) : List Nat := [n]

/-- Toy checksum: the byte sum. -/
def toy_crc (bytes : List Nat) : Nat := bytes.sum

/-- Trivial haversine stand-in for concrete filter evaluations. -/
def hav0 : ℚ → ℚ → ℚ → ℚ → ℚ := fun _ _ _ _ => 0

/-- The default index configuration of common/src/types.rs. -/
def index_config_default : IndexConfig :=
  { maxConnections := 16, efConstruction := 200, efSearch := 50, maxLayer := 16 }

/-- A one-dimensional cosine collection used in concrete evaluations. -/
def config_w : CollectionConfig :=
  { name := "c", dimension := 1, distanceMetric := .cosine, indexConfig := index_config_default }

/-- A layer-search oracle returning a fixed candidate. -/
def probe_search_layer : List ℚ → List Nat → Nat → Nat → List (Nat × ℚ) :=
  fun _ _ _ _ => [(0, 0)]

/-- An inner-graph search oracle echoing the ef argument it receives as
the returned internal index, exposing the dynamic list size that
HnswRsIndex::search forwards to hnsw_rs. -/
def echo_ef_search : (List ℚ → List ℚ → ℚ) → List (List ℚ × Nat) → List ℚ → Nat → Nat →
    List (Nat × ℚ) :=
  fun _ _ _ _ ef => [(ef, 0)]

/-- An inner-graph search oracle returning nothing. -/
def null_inner_search : (List ℚ → List ℚ → ℚ) → List (List ℚ × Nat) → List ℚ → Nat → Nat →
    List (Nat × ℚ) :=
  fun _ _ _ _ _ => []

/-- A trivial distance stand-in for concrete evaluations. -/
def dist0 : List ℚ → List ℚ → ℚ := fun _ _ => 0

/-- A one-dimensional cosine index holding ids 7 (internal index 0) and 8
(internal index 1), built through the embedded insert path. -/
def ef_probe_state : HnswRsState :=
  (run_ops (HnswRsIndex.new .cosine 1) [.insert 7 [0] none, .insert 8 [0] none]).1

/-- A history that deletes id 0 and then re-inserts it. -/
def reinsert_ops : List Op :=
  [.insert 0 [0] none, .delete 0, .insert 0 [0] none]

/-- A per-collection index search oracle returning one result matching
the keyword filter below and one not matching it. -/
def probe_index_search : List ℚ → Nat → Option Nat → List SearchResult :=
  fun _ _ _ =>
    [ { id := 1, distance := 0, metadata := some [("k", .str "a")] },
      { id := 2, distance := 0, metadata := some [("k", .str "b")] } ]

/-- The keyword filter requiring field k to equal a. -/
def filter_w : Filter := .must [.cond (.matchKeyword "k" (.keyword "a"))]

/-- Replace the recorded distance metric of an index state. -/
def with_metric (m : DistanceMetric) (s : HnswRsState) : HnswRsState :=
  { s with distanceMetric := m }

end DVec

namespace DVec

/-! # Theorems -/

/-- Claim C6: for every condition c and every metadata mapping m that is
present, evaluate_filter of MustNot([c]) equals the negation of
evaluate_filter of Must([c]). -/
theorem C6_mustNot_is_negation_of_must (hav : ℚ → ℚ → ℚ → ℚ → ℚ)
    (c : Condition) (m : Metadata) :
    evaluate_filter hav (.mustNot [c]) (some m) =
      !(evaluate_filter hav (.must [c]) (some m)) := by
  simp [evaluate_filter, conditions_all, conditions_any]

/-- Claim C2: CollectionStorage::insert rejects a vector whose data
length differs from the collection dimension with InvalidDimension
(appending nothing, as the error is returned before any file write), a
successful insert preserves the all-records-have-the-collection-dimension
invariant of the vectors file, batch_insert errors with InvalidDimension
whenever any vector of the batch is mismatched (validating everything
before its single append), and a successful batch_insert preserves the
invariant as well. -/
theorem C2_insert_dimension_guard (config : CollectionConfig) (file : List Vector)
    (hfile : ∀ w ∈ file, w.data.length = config.dimension) :
    (∀ v, v.data.length ≠ config.dimension →
      CollectionStorage.insert config file v =
        .error (.invalidDimension config.dimension v.data.length)) ∧
    (∀ v file2, CollectionStorage.insert config file v = .ok file2 →
      ∀ w ∈ file2, w.data.length = config.dimension) ∧
    (∀ vectors, (∃ v ∈ vectors, v.data.length ≠ config.dimension) →
      ∃ a, CollectionStorage.batch_insert config file vectors =
        .error (.invalidDimension config.dimension a)) ∧
    (∀ vectors file2, CollectionStorage.batch_insert config file vectors = .ok file2 →
      ∀ w ∈ file2, w.data.length = config.dimension) := by
  refine ⟨?_, ?_, ?_, ?_⟩
  · intro v h
    simp [CollectionStorage.insert, h]
  · intro v file2 hok w hw
    by_cases h : v.data.length = config.dimension
    · simp [CollectionStorage.insert, h] at hok
      subst hok
      rcases List.mem_append.mp hw with h2 | h2
      · exact hfile w h2
      · simp at h2
        subst h2
        exact h
    · simp [CollectionStorage.insert, h] at hok
  · intro vectors hex
    rcases hex with ⟨v, hv, hne⟩
    have hne2 : vectors ≠ [] := by
      intro h
      subst h
      simp at hv
    have hfind : (vectors.find? (fun v => v.data.length ≠ config.dimension)).isSome := by
      rw [List.find?_isSome]
      exact ⟨v, hv, by simpa using hne⟩
    rcases Option.isSome_iff_exists.mp hfind with ⟨u, hu⟩
    refine ⟨u.data.length, ?_⟩
    simp only [ne_eq, decide_not] at hu
    simp [CollectionStorage.batch_insert, hne2, hu]
  · intro vectors file2 hok w hw
    by_cases hemp : vectors.isEmpty
    · simp [CollectionStorage.batch_insert, hemp] at hok
      subst hok
      exact hfile w hw
    · rcases hfind : vectors.find? (fun v => v.data.length ≠ config.dimension) with _ | u
      · have hfind2 := hfind
        simp only [ne_eq, decide_not] at hfind2
        simp [CollectionStorage.batch_insert, hemp, hfind2] at hok
        subst hok
        rcases List.mem_append.mp hw with h2 | h2
        · exact hfile w h2
        · have := List.find?_eq_none.mp hfind w h2
          simpa using this
      · have hfind2 := hfind
        simp only [ne_eq, decide_not] at hfind2
        simp [CollectionStorage.batch_insert, hemp, hfind2] at hok

/-- Witness for C2 at a concrete mismatching insert. -/
theorem C2_witness :
    CollectionStorage.insert config_w []
        { id := 0, data := [1, 2], metadata := none } =
      .error (.invalidDimension 1 2) :=
  (C2_insert_dimension_guard config_w [] (by simp)).1
    { id := 0, data := [1, 2], metadata := none } (by decide)

/-- Claim C9: for a registered collection, StorageEngine::get_vector
returns Ok(None) and StorageEngine::delete_vector returns Ok(false)
whatever the id (the per-collection get and delete are placeholders), so
VectorStore::get never yields a vector from disk and VectorStore::delete
returns Ok(false). -/
theorem C9_get_and_delete_are_placeholders (s : StorageEngineState) (index : HnswRsState)
    (collection : String) (id : Nat) (config : CollectionConfig)
    (h : alist_lookup collection s.collections = some config) :
    StorageEngine.get_vector s collection id = .ok none ∧
    StorageEngine.delete_vector s collection id =
      .ok ({ s with walDeletes := s.walDeletes ++ [(collection, id)] }, false) ∧
    VectorStore.get s collection id = .ok none ∧
    VectorStore.delete s index collection id =
      .ok ({ s with walDeletes := s.walDeletes ++ [(collection, id)] },
        (HnswRsIndex.delete index id).1, false) := by
  simp [StorageEngine.get_vector, StorageEngine.delete_vector, VectorStore.get,
    VectorStore.delete, CollectionStorage.get, CollectionStorage.delete, h]

/-- Witness for C9 at a concrete engine with one registered collection. -/
theorem C9_witness :
    VectorStore.get { collections := [("c", config_w)], walDeletes := [] } "c" 3 = .ok none ∧
    VectorStore.delete { collections := [("c", config_w)], walDeletes := [] }
        (HnswRsIndex.new .cosine 1) "c" 3 =
      .ok ({ collections := [("c", config_w)], walDeletes := [("c", 3)] },
        HnswRsIndex.new .cosine 1, false) :=
  have h := C9_get_and_delete_are_placeholders
    { collections := [("c", config_w)], walDeletes := [] }
    (HnswRsIndex.new .cosine 1) "c" 3 config_w rfl
  ⟨h.2.2.1, h.2.2.2.trans (by rfl)⟩

/-- Claim C5: restore_snapshot recomputes the checksum over the snapshot
directory files excluding snapshot.json and compares it with the stored
one; on a mismatch it fails with Corruption before anything is copied,
and on a match it copies exactly the files other than snapshot.json into
the target directory. -/
theorem C5_restore_checksum_gate (hash : List (List Nat) → Nat)
    (parseMeta : List Nat → Option SnapshotMetadata)
    (dir : List (String × List Nat)) (metaBytes : List Nat) (meta : SnapshotMetadata)
    (hlook : alist_lookup "snapshot.json" dir = some metaBytes)
    (hparse : parseMeta metaBytes = some meta) :
    (calculate_checksum hash dir ≠ meta.checksum →
      restore_snapshot hash parseMeta dir =
        .error (.corruption "snapshot checksum mismatch")) ∧
    (calculate_checksum hash dir = meta.checksum →
      restore_snapshot hash parseMeta dir =
        .ok (dir.filter (fun e => e.1 ≠ "snapshot.json"))) := by
  constructor <;> intro h <;> simp [restore_snapshot, hlook, hparse, h]

/-- Witness for C5 at a concrete two-file snapshot directory, in both the
matching and the tampered case. -/
theorem C5_witness :
    restore_snapshot (fun files => files.length) (fun _ => some
        { name := "s", collection := "c", createdAt := 0, sizeBytes := 0,
          vectorCount := 0, checksum := 1 })
      [("snapshot.json", [0]), ("vectors.bin", [7])] = .ok [("vectors.bin", [7])] ∧
    restore_snapshot (fun files => files.length) (fun _ => some
        { name := "s", collection := "c", createdAt := 0, sizeBytes := 0,
          vectorCount := 0, checksum := 2 })
      [("snapshot.json", [0]), ("vectors.bin", [7])] =
      .error (.corruption "snapshot checksum mismatch") :=
  ⟨((C5_restore_checksum_gate (fun files => files.length)
      (fun _ => some
        { name := "s", collection := "c", createdAt := 0, sizeBytes := 0,
          vectorCount := 0, checksum := 1 })
      [("snapshot.json", [0]), ("vectors.bin", [7])] [0]
      { name := "s", collection := "c", createdAt := 0, sizeBytes := 0,
        vectorCount := 0, checksum := 1 } (by decide) rfl).2 (by decide)).trans rfl,
    (C5_restore_checksum_gate (fun files => files.length)
      (fun _ => some
        { name := "s", collection := "c", createdAt := 0, sizeBytes := 0,
          vectorCount := 0, checksum := 2 })
      [("snapshot.json", [0]), ("vectors.bin", [7])] [0]
      { name := "s", collection := "c", createdAt := 0, sizeBytes := 0,
        vectorCount := 0, checksum := 2 } (by decide) rfl).1 (by decide)⟩

/-- Claim C4: when a query carries a filter, the index is searched for
limit * 3 candidates, every returned result satisfies evaluate_filter on
its metadata, and at most limit results are returned; without a filter
the index is searched for exactly limit candidates (and truncated to
limit). -/
theorem C4_query_filter_path (hav : ℚ → ℚ → ℚ → ℚ → ℚ)
    (configOf : String → Option CollectionConfig)
    (indexSearchOf : String → Option (List ℚ → Nat → Option Nat → List SearchResult))
    (request : QueryRequest) (config : CollectionConfig)
    (indexSearch : List ℚ → Nat → Option Nat → List SearchResult)
    (hc : configOf request.collection = some config)
    (hd : request.vector.length = config.dimension)
    (hi : indexSearchOf request.collection = some indexSearch) :
    (∀ f, request.filter = some f →
      VectorStore.query hav configOf indexSearchOf request =
        .ok (((indexSearch request.vector (request.limit * 3) request.efSearch).filter
          (fun r => evaluate_filter hav f r.metadata)).take request.limit) ∧
      ∀ res, VectorStore.query hav configOf indexSearchOf request = .ok res →
        ∀ r ∈ res, evaluate_filter hav f r.metadata = true) ∧
    (∀ res, VectorStore.query hav configOf indexSearchOf request = .ok res →
      res.length ≤ request.limit) ∧
    (request.filter = none →
      VectorStore.query hav configOf indexSearchOf request =
        .ok ((indexSearch request.vector request.limit request.efSearch).take request.limit)) := by
  have hq : VectorStore.query hav configOf indexSearchOf request =
      .ok (match request.filter with
        | some f =>
          ((indexSearch request.vector (request.limit * 3) request.efSearch).filter
            (fun r => evaluate_filter hav f r.metadata)).take request.limit
        | none => (indexSearch request.vector request.limit request.efSearch).take request.limit) := by
    rcases hf : request.filter with _ | f <;>
      simp [VectorStore.query, hc, hd, hi, hf]
  refine ⟨?_, ?_, ?_⟩
  · intro f hf
    rw [hf] at hq
    refine ⟨hq, ?_⟩
    intro res hres r hr
    rw [hq] at hres
    have hres2 : res = ((indexSearch request.vector (request.limit * 3)
        request.efSearch).filter (fun r => evaluate_filter hav f r.metadata)).take
          request.limit := by
      cases hres
      rfl
    rw [hres2] at hr
    have hr2 := (List.take_sublist _ _).mem hr
    exact (List.mem_filter.mp hr2).2
  · intro res hres
    rcases hf : request.filter with _ | f <;> rw [hf] at hq <;> rw [hq] at hres <;>
      (have hres2 := hres; cases hres2) <;> exact List.length_take_le _ _
  · intro hf
    rw [hf] at hq
    exact hq

/-- Witness for C4 at a concrete two-candidate index search and keyword
filter: the non-matching candidate is removed and the matching one kept. -/
theorem C4_witness :
    VectorStore.query hav0 (fun _ => some config_w) (fun _ => some probe_index_search)
        { collection := "c", vector := [0], limit := 2, efSearch := none,
          filter := some filter_w } =
      .ok [{ id := 1, distance := 0, metadata := some [("k", .str "a")] }] :=
  (((C4_query_filter_path hav0 (fun _ => some config_w) (fun _ => some probe_index_search)
      { collection := "c", vector := [0], limit := 2, efSearch := none,
        filter := some filter_w } config_w probe_index_search rfl (by decide) rfl).1
    filter_w rfl).1).trans (by rfl)

/-- Claim C3 (amended): HnswIndex::search (hnsw.rs) runs its layer-zero
search with dynamic list size max(ef_search, limit), defaulting ef_search
to the configured value when absent; HnswRsIndex::search
(hnsw_rs_index.rs) instead hands the supplied ef_search to the inner
graph unchanged, and uses max(limit, 50) when it is absent, ignoring the
configured value. -/
theorem C3_layer0_dynamic_list_size (config : IndexConfig) (dimension : Nat)
    (entryPoint : Option Nat) (layerOf : Nat → Nat) (metadataOf : Nat → Option Metadata)
    (searchLayer : List ℚ → List Nat → Nat → Nat → List (Nat × ℚ))
    (query : List ℚ) (limit : Nat) (ef : Option Nat) (entryId : Nat)
    (hq : query.length = dimension) (he : entryPoint = some entryId) :
    (HnswIndex.search config dimension entryPoint layerOf metadataOf searchLayer
        query limit ef =
      .ok (((searchLayer query
          (hnsw_descend searchLayer query [entryId] (layerOf entryId))
          (max (ef.getD config.efSearch) limit) 0).take limit).map (fun c =>
            { id := c.1, distance := c.2, metadata := metadataOf c.1 }))) ∧
    (∀ e l, HnswRsIndex.effectiveEf (some e) l = e) ∧
    (∀ l, HnswRsIndex.effectiveEf none l = max l 50) := by
  refine ⟨?_, fun e l => rfl, fun l => rfl⟩
  simp [HnswIndex.search, hq, he]

/-- Witness for C3 at a concrete one-node index and layer-search oracle. -/
theorem C3_witness :
    HnswIndex.search index_config_default 1 (some 0) (fun _ => 0) (fun _ => none)
        probe_search_layer [0] 2 none =
      .ok [{ id := 0, distance := 0, metadata := none }] :=
  ((C3_layer0_dynamic_list_size index_config_default 1 (some 0) (fun _ => 0)
      (fun _ => none) probe_search_layer [0] 2 none 0 rfl rfl).1).trans (by rfl)

/-- Counterexample for C3 as stated: with ef_search = 1 and limit = 10,
HnswRsIndex::search forwards dynamic list size 1 to the inner graph, not
max(1, 10) = 10, and with ef_search absent it forwards max(limit, 50)
regardless of the configured value; an inner-search oracle that echoes
the ef it receives as the returned internal index observes size 1 (id 8,
internal index 1) where the claim predicts size 10. -/
theorem C3_counterexample :
    HnswRsIndex.effectiveEf (some 1) 10 = 1 ∧
    ¬ HnswRsIndex.effectiveEf (some 1) 10 = max 1 10 ∧
    HnswRsIndex.effectiveEf none 10 = 50 ∧
    HnswRsIndex.search ef_probe_state echo_ef_search dist0 dist0 [0] 10 (some 1) =
      .ok [{ id := 8, distance := 0, metadata := none }] := by
  refine ⟨rfl, by decide, rfl, by rfl⟩

/-- HnswRsIndex::insert changes no configuration field: the distance
metric of the resulting state is the original one. -/
theorem insert_preserves_metric (s : HnswRsState) (id : Nat) (v : List ℚ)
    (m : Option Metadata) (s2 : HnswRsState)
    (h : HnswRsIndex.insert s id v m = .ok s2) :
    s2.distanceMetric = s.distanceMetric := by
  unfold HnswRsIndex.insert at h
  split at h
  · cases h
  · cases h
    rfl

/-- HnswRsIndex::delete changes no configuration field. -/
theorem delete_preserves_metric (s : HnswRsState) (id : Nat) :
    (HnswRsIndex.delete s id).1.distanceMetric = s.distanceMetric := by
  unfold HnswRsIndex.delete
  cases map_lookup id s.idToIdx <;> rfl

/-- For any two non-Euclidean metrics the insert path is identical up to
the recorded metric, since both take the default (cosine) branch. -/
theorem insert_comm_with_metric (metric : DistanceMetric) (hm : metric ≠ .euclidean)
    (s : HnswRsState) (hs : s.distanceMetric ≠ .euclidean) (id : Nat) (v : List ℚ)
    (m : Option Metadata) :
    HnswRsIndex.insert (with_metric metric s) id v m =
      (HnswRsIndex.insert s id v m).map (with_metric metric) := by
  rcases s with ⟨ic, ie, dm, dim, ii, xi, md, ni⟩
  by_cases h : v.length = dim <;>
    cases metric <;> cases dm <;>
      simp_all [HnswRsIndex.insert, with_metric, Except.map]

/-- Deletion ignores the recorded metric entirely. -/
theorem delete_comm_with_metric (metric : DistanceMetric) (s : HnswRsState) (id : Nat) :
    HnswRsIndex.delete (with_metric metric s) id =
      (with_metric metric (HnswRsIndex.delete s id).1, (HnswRsIndex.delete s id).2) := by
  rcases s with ⟨ic, ie, dm, dim, ii, xi, md, ni⟩
  unfold HnswRsIndex.delete with_metric
  cases map_lookup id ii <;> rfl

/-- Running a history leaves the recorded metric unchanged. -/
theorem run_ops_preserves_metric (ops : List Op) :
    ∀ (s : HnswRsState), (run_ops s ops).1.distanceMetric = s.distanceMetric := by
  induction ops with
  | nil => intro s; rfl
  | cons op rest ih =>
    intro s
    cases op with
    | insert id v m =>
      cases hins : HnswRsIndex.insert s id v m with
      | error e =>
        simp only [run_ops, hins]
        exact ih s
      | ok s2 =>
        simp only [run_ops, hins]
        rw [ih s2, insert_preserves_metric s id v m s2 hins]
    | delete id =>
      simp only [run_ops]
      rw [ih _, delete_preserves_metric]

/-- Running a history of inserts and deletes commutes with relabelling
the metric between non-Euclidean metrics. -/
theorem run_ops_comm_with_metric (metric : DistanceMetric) (hm : metric ≠ .euclidean)
    (ops : List Op) :
    ∀ (s : HnswRsState), s.distanceMetric ≠ .euclidean →
      run_ops (with_metric metric s) ops =
        (with_metric metric (run_ops s ops).1, (run_ops s ops).2) := by
  induction ops with
  | nil => intro s _; rfl
  | cons op rest ih =>
    intro s hs
    cases op with
    | insert id v m =>
      have hcomm := insert_comm_with_metric metric hm s hs id v m
      cases hins : HnswRsIndex.insert s id v m with
      | error e =>
        rw [hins] at hcomm
        simp only [run_ops, hcomm, hins, Except.map]
        exact ih s hs
      | ok s2 =>
        rw [hins] at hcomm
        have hs2 : s2.distanceMetric ≠ .euclidean := by
          rw [insert_preserves_metric s id v m s2 hins]
          exact hs
        simp only [run_ops, hcomm, hins, Except.map]
        exact ih s2 hs2
    | delete id =>
      have hdel := delete_comm_with_metric metric s id
      have hs2 : (HnswRsIndex.delete s id).1.distanceMetric ≠ .euclidean := by
        rw [delete_preserves_metric s id]
        exact hs
      simp only [run_ops, hdel]
      rw [ih (HnswRsIndex.delete s id).1 hs2]

/-- For any two non-Euclidean metrics the search path is identical: both
consult the cosine graph with the cosine distance. -/
theorem search_comm_with_metric (metric : DistanceMetric) (hm : metric ≠ .euclidean)
    (s : HnswRsState) (hs : s.distanceMetric ≠ .euclidean)
    (innerSearch : (List ℚ → List ℚ → ℚ) → List (List ℚ × Nat) → List ℚ → Nat → Nat → List (Nat × ℚ))
    (distCosine distL2 : List ℚ → List ℚ → ℚ) (query : List ℚ) (limit : Nat)
    (ef : Option Nat) :
    HnswRsIndex.search (with_metric metric s) innerSearch distCosine distL2 query limit ef =
      HnswRsIndex.search s innerSearch distCosine distL2 query limit ef := by
  rcases s with ⟨ic, ie, dm, dim, ii, xi, md, ni⟩
  cases metric <;> cases dm <;>
    simp_all [HnswRsIndex.search, with_metric]

/-- Claim C10: for a collection whose metric is DotProduct or Manhattan,
HnswRsIndex::new constructs the cosine HNSW instance (no Euclidean
instance), and after any history of inserts and deletes a search behaves
exactly as on the index constructed with the Cosine metric: the
distances returned are cosine distances. -/
theorem C10_dot_and_manhattan_fall_back_to_cosine (metric : DistanceMetric)
    (hm : metric = .dotProduct ∨ metric = .manhattan) (dim : Nat) (ops : List Op)
    (innerSearch : (List ℚ → List ℚ → ℚ) → List (List ℚ × Nat) → List ℚ → Nat → Nat → List (Nat × ℚ))
    (distCosine distL2 : List ℚ → List ℚ → ℚ) (query : List ℚ) (limit : Nat)
    (ef : Option Nat) :
    (HnswRsIndex.new metric dim).innerCosine = some [] ∧
    (HnswRsIndex.new metric dim).innerEuclidean = none ∧
    HnswRsIndex.search (run_ops (HnswRsIndex.new metric dim) ops).1
        innerSearch distCosine distL2 query limit ef =
      HnswRsIndex.search (run_ops (HnswRsIndex.new .cosine dim) ops).1
        innerSearch distCosine distL2 query limit ef := by
  have hm2 : metric ≠ .euclidean := by
    rcases hm with h | h <;> subst h <;> decide
  have hnew : HnswRsIndex.new metric dim =
      with_metric metric (HnswRsIndex.new .cosine dim) := by
    rcases hm with h | h <;> subst h <;> rfl
  have hdm : (HnswRsIndex.new .cosine dim).distanceMetric ≠ .euclidean := by
    simp [HnswRsIndex.new]
  refine ⟨?_, ?_, ?_⟩
  · rcases hm with h | h <;> subst h <;> rfl
  · rcases hm with h | h <;> subst h <;> rfl
  · rw [hnew, run_ops_comm_with_metric metric hm2 ops (HnswRsIndex.new .cosine dim) hdm]
    exact search_comm_with_metric metric hm2 (run_ops (HnswRsIndex.new .cosine dim) ops).1
      (by rw [show ((run_ops (HnswRsIndex.new .cosine dim) ops).1).distanceMetric =
            (HnswRsIndex.new .cosine dim).distanceMetric from ?_]
          · exact hdm
          · exact run_ops_preserves_metric ops (HnswRsIndex.new .cosine dim))
      innerSearch distCosine distL2 query limit ef

/-- Witness for C10 at a concrete DotProduct collection and insert. -/
theorem C10_witness :
    HnswRsIndex.search (run_ops (HnswRsIndex.new .dotProduct 1) [.insert 3 [0] none]).1
        null_inner_search dist0 dist0 [0] 1 none =
      HnswRsIndex.search (run_ops (HnswRsIndex.new .cosine 1) [.insert 3 [0] none]).1
        null_inner_search dist0 dist0 [0] 1 none :=
  (C10_dot_and_manhattan_fall_back_to_cosine .dotProduct (Or.inl rfl) 1
    [.insert 3 [0] none] null_inner_search dist0 dist0 [0] 1 none).2.2

/-- List.getD on a replicate of zeros is always zero. -/
theorem getD_replicate_zero (d i : Nat) : (List.replicate d (0 : ℚ)).getD i 0 = 0 := by
  rcases lt_or_ge i d with h | h
  · rw [List.getD_eq_getElem _ _ (by simpa using h)]
    simp
  · rw [List.getD_eq_default _ _ (by simpa using h)]

/-- col_sum over the empty list of vectors is zero. -/
theorem col_sum_nil (i : Nat) : col_sum [] i = 0 := rfl

/-- col_sum splits off the head vector. -/
theorem col_sum_cons (v : List ℚ) (vs : List (List ℚ)) (i : Nat) :
    col_sum (v :: vs) i = v.getD i 0 + col_sum vs i := by
  simp [col_sum]

/-- The accumulation loop of average_vectors computes the elementwise
sum: starting from an accumulator of length d and folding vectors of
length d, entry i of the result is the accumulator entry plus the column
sum. -/
theorem sum_loop_eq (d : Nat) (vs : List (List ℚ)) :
    ∀ (acc : List ℚ), acc.length = d → (∀ v ∈ vs, v.length = d) →
      sum_loop d acc vs =
        some ((List.range d).map (fun i => acc.getD i 0 + col_sum vs i)) := by
  induction vs with
  | nil =>
    intro acc hacc _
    simp only [sum_loop, Option.some.injEq]
    apply List.ext_getElem
    · simp [hacc]
    · intro i h1 h2
      simp only [List.getElem_map, List.getElem_range, col_sum_nil, add_zero]
      exact (List.getD_eq_getElem _ _ h1).symm
  | cons v vs ih =>
    intro acc hacc hvs
    have hv : v.length = d := hvs v (by simp)
    have hrest : ∀ w ∈ vs, w.length = d := fun w hw => hvs w (by simp [hw])
    have hacc2 : (List.zipWith (· + ·) acc v).length = d := by
      simp [List.length_zipWith, hacc, hv]
    rw [sum_loop, if_pos hv, ih _ hacc2 hrest]
    refine congrArg some (List.map_congr_left ?_)
    intro i hi
    have hid : i < d := List.mem_range.mp hi
    rw [col_sum_cons,
      List.getD_eq_getElem _ _ (by rw [hacc2]; exact hid),
      List.getElem_zipWith,
      List.getD_eq_getElem _ _ (by rw [hacc]; exact hid),
      List.getD_eq_getElem _ _ (by rw [hv]; exact hid)]
    ring

/-- average_vectors on a non-empty list of vectors of equal dimension d
is the elementwise mean: entry i is the column sum divided by the number
of vectors. -/
theorem average_vectors_eq (P : List (List ℚ)) (d : Nat) (hne : P ≠ [])
    (hd : ∀ v ∈ P, v.length = d) :
    average_vectors P =
      some ((List.range d).map (fun i => col_sum P i / (P.length : ℚ))) := by
  rcases P with _ | ⟨v0, rest⟩
  · exact absurd rfl hne
  · have hv0 : v0.length = d := hd v0 (by simp)
    simp only [average_vectors]
    rw [hv0, sum_loop_eq d (v0 :: rest) (List.replicate d 0) (by simp) hd]
    simp only [List.map_map]
    refine congrArg some (List.map_congr_left ?_)
    intro i _
    simp [Function.comp, getD_replicate_zero]

/-- Claim C7: for a non-empty list of positive vectors P and a list of
negative vectors N, all of dimension d, the recommendation query vector
is the elementwise mean of P when N is empty, and elementwise
2 * avg(P) - avg(N) when N is non-empty, where avg is the column sum
divided by the list length. -/
theorem C7_recommendation_vector (P N : List (List ℚ)) (d : Nat)
    (hP : P ≠ []) (hPd : ∀ v ∈ P, v.length = d) (hNd : ∀ v ∈ N, v.length = d) :
    (N = [] → compute_recommendation_vector P N =
      some ((List.range d).map (fun i => col_sum P i / (P.length : ℚ)))) ∧
    (N ≠ [] → compute_recommendation_vector P N =
      some ((List.range d).map (fun i =>
        2 * (col_sum P i / (P.length : ℚ)) - col_sum N i / (N.length : ℚ)))) := by
  have hPavg := average_vectors_eq P d hP hPd
  constructor
  · intro h
    subst h
    simp [compute_recommendation_vector, hPavg]
  · intro h
    have hNavg := average_vectors_eq N d h hNd
    have hemp : N.isEmpty = false := by
      cases N with
      | nil => exact absurd rfl h
      | cons a l => rfl
    simp only [compute_recommendation_vector, hPavg, hNavg, hemp, Bool.false_eq_true,
      if_false, List.length_map, List.length_range, ne_eq, not_true_eq_false]
    rw [List.zipWith_map, List.zipWith_same]

/-- Witness for C7 at concrete positive and negative examples, in both
the empty-negative and the non-empty-negative case. -/
theorem C7_witness :
    compute_recommendation_vector [[1, 3]] [] = some [1, 3] ∧
    compute_recommendation_vector [[1, 3]] [[1, 1]] = some [1, 5] :=
  ⟨((C7_recommendation_vector [[1, 3]] [] 2 (by decide) (by decide) (by decide)).1
      rfl).trans (by norm_num [List.range_succ, col_sum]),
    ((C7_recommendation_vector [[1, 3]] [[1, 1]] 2 (by decide) (by decide) (by decide)).2
      (by decide)).trans (by norm_num [List.range_succ, col_sum])⟩

/-- Little-endian 32-bit decode inverts encode below 2^32. -/
theorem le32_le32enc (n : Nat) (h : n < 4294967296) :
    le32 (n % 256) (n / 256 % 256) (n / 65536 % 256) (n / 16777216 % 256) = n := by
  unfold le32
  omega

/-- One loop iteration of read_all on a well-framed entry (correct magic,
length within the 100 MiB bound): the whole frame is consumed, its
operation is kept exactly when deserialization and the checksum
comparison succeed, and scanning resumes at the next frame. -/
theorem read_all_go_frame_step (de : List Nat → Option (WALEntry α)) (ser : α → List Nat)
    (crc : List Nat → Nat) (fuel : Nat) (f rest : List Nat)
    (hlen : f.length ≤ MAX_WAL_ENTRY) :
    read_all_go de ser crc (fuel + 1) (encode_frame f ++ rest) =
      match surviving de ser crc f with
      | some op => op :: read_all_go de ser crc fuel rest
      | none => read_all_go de ser crc fuel rest := by
  have hm : le32enc MAGIC = [239, 190, 173, 222] := by decide
  have hmagic : le32 239 190 173 222 = MAGIC := by decide
  have h32 : f.length < 4294967296 := by
    have : MAX_WAL_ENTRY < 4294967296 := by decide
    omega
  have henc : encode_frame f ++ rest =
      239 :: 190 :: 173 :: 222 :: ((f.length % 256) :: (f.length / 256 % 256) ::
        (f.length / 65536 % 256) :: (f.length / 16777216 % 256) :: (f ++ rest)) := by
    simp [encode_frame, encode_frame_with_magic, hm, le32enc, List.append_assoc]
    all_goals decide
  rw [henc]
  simp only [read_all_go, hmagic, le32_le32enc f.length h32, ne_eq, not_true_eq_false,
    if_false, ite_false]
  rw [if_neg (by omega : ¬ MAX_WAL_ENTRY < f.length),
    if_neg (by simp [List.length_append]),
    List.take_left, List.drop_left]
  rcases hde : de f with _ | entry
  · simp [surviving, hde]
  · simp only [surviving, hde]
    by_cases hc : crc (ser entry.operation) = entry.checksum
    · simp [hc]
    · simp [hc]

/-- read_all on a stream of well-framed entries returns exactly the
operations of the entries surviving deserialization and the checksum
comparison, in file order, for any sufficient fuel. -/
theorem read_all_go_frames (de : List Nat → Option (WALEntry α)) (ser : α → List Nat)
    (crc : List Nat → Nat) (frames : List (List Nat)) :
    ∀ fuel, ((frames.map encode_frame).flatten).length ≤ fuel →
      (∀ f ∈ frames, f.length ≤ MAX_WAL_ENTRY) →
      read_all_go de ser crc fuel ((frames.map encode_frame).flatten) =
        frames.filterMap (surviving de ser crc) := by
  induction frames with
  | nil =>
    intro fuel _ _
    cases fuel <;> rfl
  | cons f frames ih =>
    intro fuel hfuel hgood
    have hf : f.length ≤ MAX_WAL_ENTRY := hgood f (by simp)
    have hrest : ∀ g ∈ frames, g.length ≤ MAX_WAL_ENTRY := fun g hg => hgood g (by simp [hg])
    have hjoin : (((f :: frames).map encode_frame)).flatten =
        encode_frame f ++ (frames.map encode_frame).flatten := by simp
    rw [hjoin] at hfuel ⊢
    have hlen : (encode_frame f ++ (frames.map encode_frame).flatten).length =
        8 + f.length + ((frames.map encode_frame).flatten).length := by
      simp [encode_frame, encode_frame_with_magic, le32enc]
      omega
    obtain ⟨fuel2, rfl⟩ : ∃ fuel2, fuel = fuel2 + 1 := by
      rcases fuel with _ | fuel2
      · exfalso
        rw [hlen] at hfuel
        omega
      · exact ⟨fuel2, rfl⟩
    have hfuel2 : ((frames.map encode_frame).flatten).length ≤ fuel2 := by
      rw [hlen] at hfuel
      omega
    rw [read_all_go_frame_step de ser crc fuel2 f _ hf]
    rcases hs : surviving de ser crc f with _ | op <;>
      simp [List.filterMap_cons, hs, ih fuel2 hfuel2 hrest]

/-- Claim C1 (amended): on a WAL byte stream consisting of well-framed
entries (correct magic, length prefix within 100 MiB), read_all returns
without error exactly the operations of the entries whose payload
deserializes and whose stored checksum matches the CRC recomputed over
the re-serialized operation, in file order; entries failing either check
are skipped whole.  (For frames with a corrupted magic or an over-large
length prefix the scanner does not skip the frame as a unit: it
resynchronizes four bytes after the magic field, or right after the
length field, see the counterexample.) -/
theorem C1_read_all_skips_corrupt_entries (de : List Nat → Option (WALEntry α))
    (ser : α → List Nat) (crc : List Nat → Nat) (frames : List (List Nat))
    (hgood : ∀ f ∈ frames, f.length ≤ MAX_WAL_ENTRY) :
    read_all de ser crc ((frames.map encode_frame).flatten) =
      frames.filterMap (surviving de ser crc) :=
  read_all_go_frames de ser crc frames _ (le_refl _) hgood

/-- Witness for C1: a two-frame file whose second entry has a checksum
mismatch yields exactly the first operation. -/
theorem C1_witness :
    read_all toy_de toy_ser toy_crc (([[1, 1], [2, 5]].map encode_frame).flatten) = [1] :=
  (C1_read_all_skips_corrupt_entries toy_de toy_ser toy_crc [[1, 1], [2, 5]]
    (by decide)).trans (by decide)

/-- Counterexample for C1 as stated: a file consisting of one single
frame with a corrupted magic field (zero) is not skipped as a frame;
the scanner resynchronizes four bytes at a time inside it and parses an
embedded valid frame, returning its operation 5 although the file's only
entry is corrupt and the claim predicts the empty result. -/
theorem C1_counterexample :
    (0 : Nat) ≠ MAGIC ∧
    read_all toy_de toy_ser toy_crc (encode_frame_with_magic 0 (encode_frame [5, 5])) =
      [5] := by
  constructor
  · decide
  · decide

/-- Keys of a cons cell of an association map. -/
theorem map_keys_cons (p : Nat × α) (ps : List (Nat × α)) :
    map_keys (p :: ps) = p.1 :: map_keys ps := rfl

/-- HashMap-style insert keeps the key sequence when the key is present
and appends it otherwise. -/
theorem map_keys_map_insert (k : Nat) (v : α) (l : List (Nat × α)) :
    map_keys (map_insert k v l) =
      if k ∈ map_keys l then map_keys l else map_keys l ++ [k] := by
  induction l with
  | nil => simp [map_keys, map_insert]
  | cons p ps ih =>
    rw [map_insert]
    by_cases h : p.1 = k
    · rw [if_pos h, map_keys_cons, map_keys_cons, h]
      simp
    · rw [if_neg h, map_keys_cons, map_keys_cons, ih]
      by_cases hk : k ∈ map_keys ps
      · simp [hk]
      · have hne : k ∉ (p.1 :: map_keys ps) := by
          simp only [List.mem_cons, not_or]
          exact ⟨fun e => h e.symm, hk⟩
        simp [hk, hne]

/-- Key membership after a HashMap-style insert. -/
theorem mem_map_keys_map_insert (a k : Nat) (v : α) (l : List (Nat × α)) :
    a ∈ map_keys (map_insert k v l) ↔ a ∈ map_keys l ∨ a = k := by
  rw [map_keys_map_insert]
  by_cases hk : k ∈ map_keys l
  · simp only [if_pos hk]
    exact ⟨Or.inl, fun h => h.elim id (fun e => e ▸ hk)⟩
  · simp [if_neg hk]

/-- Length after a HashMap-style insert. -/
theorem length_map_insert (k : Nat) (v : α) (l : List (Nat × α)) :
    (map_insert k v l).length = if k ∈ map_keys l then l.length else l.length + 1 := by
  have h1 : (map_insert k v l).length = (map_keys (map_insert k v l)).length := by
    simp [map_keys]
  rw [h1, map_keys_map_insert]
  by_cases hk : k ∈ map_keys l
  · rw [if_pos hk, if_pos hk]
    simp [map_keys]
  · rw [if_neg hk, if_neg hk]
    simp [map_keys]

/-- Appending a new element keeps a Nodup list Nodup. -/
theorem nodup_append_singleton (l : List Nat) (a : Nat) (h : l.Nodup) (ha : a ∉ l) :
    (l ++ [a]).Nodup := by
  simp [List.nodup_append, h, ha]

/-- HashMap-style insert keeps the keys Nodup. -/
theorem nodup_map_keys_map_insert (k : Nat) (v : α) (l : List (Nat × α))
    (h : (map_keys l).Nodup) : (map_keys (map_insert k v l)).Nodup := by
  rw [map_keys_map_insert]
  by_cases hk : k ∈ map_keys l
  · simpa [hk]
  · rw [if_neg hk]
    exact nodup_append_singleton _ _ h hk

/-- Lookup fails exactly on absent keys. -/
theorem map_lookup_eq_none (k : Nat) (l : List (Nat × α)) :
    map_lookup k l = none ↔ k ∉ map_keys l := by
  induction l with
  | nil => simp [map_lookup, map_keys]
  | cons p ps ih =>
    by_cases h : p.1 = k
    · simp [map_lookup, h, map_keys_cons]
    · simp [map_lookup, h, map_keys_cons, ih, Ne.symm h]

/-- Removing a present key shortens the map by exactly one entry. -/
theorem length_map_remove_mem (k : Nat) (l : List (Nat × α)) (h : k ∈ map_keys l) :
    (map_remove k l).length + 1 = l.length := by
  induction l with
  | nil => simp [map_keys] at h
  | cons p ps ih =>
    by_cases hp : p.1 = k
    · simp [map_remove, hp]
    · have h2 : k ∈ map_keys ps := by
        rcases (by simpa [map_keys_cons] using h : k = p.1 ∨ k ∈ map_keys ps) with h3 | h3
        · exact absurd h3.symm hp
        · exact h3
      have := ih h2
      simp only [map_remove, if_neg hp, List.length_cons]
      omega

/-- Every key surviving a removal was a key before. -/
theorem mem_map_keys_remove_sub (a k : Nat) (l : List (Nat × α)) :
    a ∈ map_keys (map_remove k l) → a ∈ map_keys l := by
  induction l with
  | nil =>
    intro h
    simpa [map_remove] using h
  | cons p ps ih =>
    intro h
    by_cases hp : p.1 = k
    · simp only [map_remove, if_pos hp] at h
      simp [map_keys_cons, h]
    · simp only [map_remove, if_neg hp, map_keys_cons] at h
      rcases List.mem_cons.mp h with h2 | h2
      · simp [map_keys_cons, h2]
      · simp [map_keys_cons, ih h2]

/-- A key different from the removed one survives removal. -/
theorem mem_map_keys_remove_of_ne (a k : Nat) (l : List (Nat × α))
    (ha : a ∈ map_keys l) (hne : a ≠ k) : a ∈ map_keys (map_remove k l) := by
  induction l with
  | nil => simp [map_keys] at ha
  | cons p ps ih =>
    by_cases hp : p.1 = k
    · simp only [map_remove, if_pos hp]
      rcases (by simpa [map_keys_cons] using ha : a = p.1 ∨ a ∈ map_keys ps) with h | h
      · exact absurd (h.trans hp) hne
      · exact h
    · simp only [map_remove, if_neg hp, map_keys_cons]
      rcases (by simpa [map_keys_cons] using ha : a = p.1 ∨ a ∈ map_keys ps) with h | h
      · simp [h]
      · simp [ih h]

/-- On a Nodup map the removed key is gone. -/
theorem not_mem_map_keys_remove (k : Nat) (l : List (Nat × α))
    (h : (map_keys l).Nodup) : k ∉ map_keys (map_remove k l) := by
  induction l with
  | nil => simp [map_remove, map_keys]
  | cons p ps ih =>
    rw [map_keys_cons] at h
    by_cases hp : p.1 = k
    · simp only [map_remove, if_pos hp]
      rw [← hp]
      exact (List.nodup_cons.mp h).1
    · simp only [map_remove, if_neg hp, map_keys_cons, List.mem_cons]
      push_neg
      exact ⟨fun e => hp e.symm, ih (List.nodup_cons.mp h).2⟩

/-- Removal keeps the keys Nodup. -/
theorem nodup_map_keys_remove (k : Nat) (l : List (Nat × α))
    (h : (map_keys l).Nodup) : (map_keys (map_remove k l)).Nodup := by
  induction l with
  | nil => simp [map_remove, map_keys]
  | cons p ps ih =>
    rw [map_keys_cons] at h
    obtain ⟨hph, hps⟩ := List.nodup_cons.mp h
    by_cases hp : p.1 = k
    · simpa [map_remove, hp] using hps
    · simp only [map_remove, if_neg hp, map_keys_cons]
      exact List.nodup_cons.mpr
        ⟨fun hm => hph (mem_map_keys_remove_sub p.1 k ps hm), ih hps⟩

/-- An insert with the right dimension succeeds. -/
theorem insert_ok_of_length (s : HnswRsState) (id : Nat) (v : List ℚ)
    (m : Option Metadata) (h : v.length = s.dimension) :
    ∃ s2, HnswRsIndex.insert s id v m = .ok s2 := by
  unfold HnswRsIndex.insert
  rw [if_neg (by simp [h])]
  exact ⟨_, rfl⟩

/-- The id map and the dimension of the state after a successful insert. -/
theorem insert_ok_fields (s : HnswRsState) (id : Nat) (v : List ℚ)
    (m : Option Metadata) (s2 : HnswRsState)
    (h : HnswRsIndex.insert s id v m = .ok s2) :
    s2.idToIdx = map_insert id s.nextIdx s.idToIdx ∧ s2.dimension = s.dimension := by
  unfold HnswRsIndex.insert at h
  split at h
  · cases h
  · cases h
    exact ⟨rfl, rfl⟩

/-- The counting invariant of the index id map under a history of inserts
and deletes: starting from a state whose keys are Nodup and contained in
the Nodup ledger I of distinct inserted ids, where every ledger id
missing from the keys has already appeared in a delete operation, the
final distinct-inserted count plus the initial key count equals the
final key count plus the successful-delete count plus the initial ledger
size. -/
theorem run_ops_count_aux (ops : List Op) :
    ∀ (s : HnswRsState) (I seenDel : List Nat),
      (map_keys s.idToIdx).Nodup →
      I.Nodup →
      (∀ a ∈ map_keys s.idToIdx, a ∈ I) →
      (∀ a ∈ I, a ∉ map_keys s.idToIdx → a ∈ seenDel) →
      (∀ a ∈ seenDel, ∀ v m, Op.insert a v m ∉ ops) →
      NoInsertAfterDelete ops →
      (∀ id v m, Op.insert id v m ∈ ops → v.length = s.dimension) →
      (acc_inserted I ops).length + (map_keys s.idToIdx).length =
        (map_keys (run_ops s ops).1.idToIdx).length + (run_ops s ops).2 + I.length := by
  induction ops with
  | nil =>
    intro s I seenDel _ _ _ _ _ _ _
    simp only [acc_inserted, run_ops]
    omega
  | cons op rest ih =>
    intro s I seenDel hK hI hsub hdel hseen hpair hdim
    cases op with
    | insert id v m =>
      have hvd : v.length = s.dimension := hdim id v m (by simp)
      obtain ⟨s2, hs2⟩ := insert_ok_of_length s id v m hvd
      obtain ⟨hfield, hdimeq⟩ := insert_ok_fields s id v m s2 hs2
      have hrun : run_ops s (Op.insert id v m :: rest) = run_ops s2 rest := by
        simp [run_ops, hs2]
      have hpair2 : NoInsertAfterDelete rest := (List.pairwise_cons.mp hpair).2
      have hdim2 : ∀ id2 v2 m2, Op.insert id2 v2 m2 ∈ rest → v2.length = s2.dimension := by
        intro id2 v2 m2 hmem
        rw [hdimeq]
        exact hdim id2 v2 m2 (by simp [hmem])
      have hseen2 : ∀ a ∈ seenDel, ∀ v2 m2, Op.insert a v2 m2 ∉ rest := by
        intro a ha v2 m2 hmem
        exact hseen a ha v2 m2 (by simp [hmem])
      have hidnotseen : id ∉ seenDel := by
        intro hin
        exact hseen id hin v m (by simp)
      by_cases hk : id ∈ map_keys s.idToIdx
      · have hkeq : map_keys s2.idToIdx = map_keys s.idToIdx := by
          rw [hfield, map_keys_map_insert, if_pos hk]
        have hidI : id ∈ I := hsub id hk
        have hacc : acc_inserted I (Op.insert id v m :: rest) = acc_inserted I rest := by
          simp [acc_inserted, hidI]
        rw [hacc, hrun]
        have hres := ih s2 I seenDel (by rw [hkeq]; exact hK) hI
          (by rw [hkeq]; exact hsub) (by rw [hkeq]; exact hdel) hseen2 hpair2 hdim2
        rw [hkeq] at hres
        exact hres
      · have hkeq : map_keys s2.idToIdx = map_keys s.idToIdx ++ [id] := by
          rw [hfield, map_keys_map_insert, if_neg hk]
        have hidI : id ∉ I := by
          intro hin
          exact hidnotseen (hdel id hin hk)
        have hacc : acc_inserted I (Op.insert id v m :: rest) =
            acc_inserted (I ++ [id]) rest := by
          simp [acc_inserted, hidI]
        rw [hacc, hrun]
        have hK2 : (map_keys s2.idToIdx).Nodup := by
          rw [hkeq]
          exact nodup_append_singleton _ _ hK hk
        have hI2 : (I ++ [id]).Nodup := nodup_append_singleton _ _ hI hidI
        have hsub2 : ∀ a ∈ map_keys s2.idToIdx, a ∈ I ++ [id] := by
          rw [hkeq]
          intro a ha
          rcases List.mem_append.mp ha with h | h
          · exact List.mem_append.mpr (Or.inl (hsub a h))
          · exact List.mem_append.mpr (Or.inr h)
        have hdel2 : ∀ a ∈ I ++ [id], a ∉ map_keys s2.idToIdx → a ∈ seenDel := by
          rw [hkeq]
          intro a ha hnot
          rcases List.mem_append.mp ha with h | h
          · exact hdel a h (fun hm => hnot (List.mem_append.mpr (Or.inl hm)))
          · exact absurd (List.mem_append.mpr (Or.inr h)) hnot
        have hres := ih s2 (I ++ [id]) seenDel hK2 hI2 hsub2 hdel2 hseen2 hpair2 hdim2
        rw [hkeq] at hres
        simp only [List.length_append, List.length_cons, List.length_nil] at hres ⊢
        omega
    | delete id =>
      have hpair2 : NoInsertAfterDelete rest := (List.pairwise_cons.mp hpair).2
      have hheadrel := (List.pairwise_cons.mp hpair).1
      have hnoins : ∀ v2 m2, Op.insert id v2 m2 ∉ rest := by
        intro v2 m2 hmem
        exact (hheadrel _ hmem id rfl v2 m2) rfl
      have hseen2 : ∀ a ∈ seenDel ++ [id], ∀ v2 m2, Op.insert a v2 m2 ∉ rest := by
        intro a ha v2 m2 hmem
        rcases List.mem_append.mp ha with h | h
        · exact hseen a h v2 m2 (by simp [hmem])
        · simp only [List.mem_singleton] at h
          subst h
          exact hnoins v2 m2 hmem
      have hdim2 : ∀ id2 v2 m2, Op.insert id2 v2 m2 ∈ rest → v2.length = s.dimension :=
        fun id2 v2 m2 hmem => hdim id2 v2 m2 (by simp [hmem])
      rcases hlook : map_lookup id s.idToIdx with _ | idx
      · have hdeleq : HnswRsIndex.delete s id = (s, false) := by
          simp [HnswRsIndex.delete, hlook]
        have hdel2 : ∀ a ∈ I, a ∉ map_keys s.idToIdx → a ∈ seenDel ++ [id] := by
          intro a ha hn
          exact List.mem_append.mpr (Or.inl (hdel a ha hn))
        have hres := ih s I (seenDel ++ [id]) hK hI hsub hdel2 hseen2 hpair2 hdim2
        simp only [run_ops, hdeleq, acc_inserted, if_false, Bool.false_eq_true]
        exact hres
      · have hmem : id ∈ map_keys s.idToIdx := by
          by_contra hn
          have := (map_lookup_eq_none id s.idToIdx).mpr hn
          rw [this] at hlook
          cases hlook
        have hdeleq : HnswRsIndex.delete s id =
            ({ s with
                idToIdx := map_remove id s.idToIdx
                idxToId := map_remove idx s.idxToId
                metadata := map_remove id s.metadata }, true) := by
          simp [HnswRsIndex.delete, hlook]
        have hK2 : (map_keys (map_remove id s.idToIdx)).Nodup :=
          nodup_map_keys_remove id s.idToIdx hK
        have hsub2 : ∀ a ∈ map_keys (map_remove id s.idToIdx), a ∈ I :=
          fun a ha => hsub a (mem_map_keys_remove_sub a id s.idToIdx ha)
        have hdel2 : ∀ a ∈ I, a ∉ map_keys (map_remove id s.idToIdx) →
            a ∈ seenDel ++ [id] := by
          intro a ha hn
          by_cases hai : a = id
          · exact List.mem_append.mpr (Or.inr (by simp [hai]))
          · by_cases haK : a ∈ map_keys s.idToIdx
            · exact absurd (mem_map_keys_remove_of_ne a id s.idToIdx haK hai) hn
            · exact List.mem_append.mpr (Or.inl (hdel a ha haK))
        have hres := ih
          { s with
              idToIdx := map_remove id s.idToIdx
              idxToId := map_remove idx s.idxToId
              metadata := map_remove id s.metadata } I (seenDel ++ [id])
          hK2 hI hsub2 hdel2 hseen2 hpair2 hdim2
        have hlen : (map_keys (map_remove id s.idToIdx)).length + 1 =
            (map_keys s.idToIdx).length := by
          simp only [map_keys, List.length_map]
          exact length_map_remove_mem id s.idToIdx hmem
        simp only [run_ops, hdeleq, acc_inserted, if_true]
        simp only [acc_inserted] at hres
        omega

/-- Claim C8 (amended): for every history of inserts and deletes in
which no id is re-inserted after a delete operation of the same id (and
whose inserts carry vectors of the index dimension), the index
stats().vector_count equals the number of distinct ids inserted minus
the number of deletes that returned true. -/
theorem C8_vector_count (metric : DistanceMetric) (dim : Nat) (ops : List Op)
    (h1 : NoInsertAfterDelete ops) (h2 : WellDimensioned dim ops) :
    HnswRsIndex.statsVectorCount (run_ops (HnswRsIndex.new metric dim) ops).1 =
      (distinct_inserted ops).length - (run_ops (HnswRsIndex.new metric dim) ops).2 := by
  have hdim0 : ∀ id v m, Op.insert id v m ∈ ops →
      v.length = (HnswRsIndex.new metric dim).dimension := by
    intro id v m hm
    have hv := h2 id v m hm
    cases metric <;> exact hv
  have haux := run_ops_count_aux ops (HnswRsIndex.new metric dim) [] []
    (by cases metric <;> simp [HnswRsIndex.new, map_keys])
    List.nodup_nil
    (by intro a ha; cases metric <;> simp [HnswRsIndex.new, map_keys] at ha)
    (by intro a ha; simp at ha)
    (by intro a ha; simp at ha)
    h1 hdim0
  have hkeys0 : (map_keys (HnswRsIndex.new metric dim).idToIdx).length = 0 := by
    cases metric <;> rfl
  have hcount : HnswRsIndex.statsVectorCount (run_ops (HnswRsIndex.new metric dim) ops).1 =
      (map_keys (run_ops (HnswRsIndex.new metric dim) ops).1.idToIdx).length := by
    simp [HnswRsIndex.statsVectorCount, map_keys]
  rw [hcount]
  simp only [distinct_inserted]
  rw [hkeys0] at haux
  simp only [List.length_nil, Nat.add_zero] at haux
  omega

/-- Witness for C8 at a concrete history: two distinct inserts and one
successful delete leave a count of one. -/
theorem C8_witness :
    HnswRsIndex.statsVectorCount (run_ops (HnswRsIndex.new .cosine 1)
        [.insert 1 [0] none, .insert 2 [0] none, .delete 1]).1 =
      (distinct_inserted [Op.insert 1 [0] none, .insert 2 [0] none, .delete 1]).length -
        (run_ops (HnswRsIndex.new .cosine 1)
          [.insert 1 [0] none, .insert 2 [0] none, .delete 1]).2 :=
  C8_vector_count .cosine 1 [.insert 1 [0] none, .insert 2 [0] none, .delete 1]
    (by
      refine List.Pairwise.cons ?_ (List.Pairwise.cons ?_
        (List.Pairwise.cons ?_ List.Pairwise.nil))
      · exact fun b _ id h => Op.noConfusion h
      · exact fun b _ id h => Op.noConfusion h
      · exact fun b hb => absurd hb (List.not_mem_nil b))
    (by
      intro id v m hm
      simp only [List.mem_cons, List.not_mem_nil, or_false] at hm
      rcases hm with h | h | h
      · cases h
        rfl
      · cases h
        rfl
      · cases h)

/-- Counterexample for C8 as stated: after inserting id 0, deleting it
(successfully) and inserting it again, the count is 1 while the number
of distinct ids inserted minus the number successfully deleted is
1 - 1 = 0. -/
theorem C8_counterexample :
    ¬ (HnswRsIndex.statsVectorCount (run_ops (HnswRsIndex.new .cosine 1) reinsert_ops).1 =
      (distinct_inserted reinsert_ops).length -
        (run_ops (HnswRsIndex.new .cosine 1) reinsert_ops).2) := by
  decide

end DVec
